import Mathlib

/-!
# Verification of the gocache repository against its specification

Shallow embedding of the core of the gocache library:
* `ByteView` (gocache byteview, `src/unnamed/part_000`),
* the LRU cache `Cache` (package `lru`, `src/unnamed/part_003`),
* the request coalescer `Flight.fly` (package `singleflight`, `src/unnamed/part_000`),
* the group orchestration `Group.Get` / `Group.load` / `Group.getLocally`
  (`src/gocache.go`),
* the consistent-hash ring `Consistentency` (`src/registry/discover.go`) and
  the peer picker `Server.Pick` (`src/server.go`).

Go machine integers (`int64`, `int`) are modelled as `Int`; byte slices as
`List Nat`; Go errors as `String`; Go interfaces holding behaviour
(`Retriever`, `Picker`, `Fetcher`) as Lean functions; Go's multiple return
`(T, error)` as `T × Option Err`.  A computation that the Go code would not
complete (an infinite loop, or a panic) is modelled as `none` in an
`Option`-typed result.
-/

/-- Go `error` values, abstracted to their message. -/
def Err : Type := String

deriving instance DecidableEq, Repr for Err

/-- `ByteView` from the gocache package: an immutable wrapper around a byte
slice `b []byte`. -/
structure ByteView where
  b : List Nat
  deriving DecidableEq, Repr

/-- `func cloneBytes(b []byte) []byte`: returns a copy of `b`; under value
semantics the copy is the same list. -/
def cloneBytes (b : List Nat) : List Nat := b

/-- `func (v ByteView) Len() int`: length of the wrapped byte slice. -/
def ByteView.len (v : ByteView) : Nat := v.b.length

/-- `func (v ByteView) ByteSlice() []byte`: defensive copy of the bytes. -/
def ByteView.byteSlice (v : ByteView) : List Nat := cloneBytes v.b

/-- Go `len(s)` on a `string`: the number of UTF-8 bytes. -/
def goStrLen (s : String) : Nat := s.utf8ByteSize

/-- The doubly-linked-list node type `Value{key, value}` of package `lru`
(`src/unnamed/part_003`).  The `lru` package is generic over values exposing
`Len() int` (`Lengthable`); this repository instantiates it with `ByteView`,
which is the instantiation embedded here. -/
structure Value where
  key : String
  value : ByteView
  deriving DecidableEq, Repr

/-- The `lru.Cache` structure: configured capacity (`capacity int64`),
tracked used size (`length int64`), and the recency list, most recently used
first.  The Go `hashmap map[string]*list.Element` indexes the same entries by
key and is represented implicitly: a key lookup is a search of the list. -/
structure Cache where
  capacity : Int
  length : Int
  list : List Value
  deriving DecidableEq, Repr

/-- Size charged to one entry: `int64(len(key)) + int64(value.Len())`. -/
def entrySize (e : Value) : Int := (goStrLen e.key : Int) + (e.value.len : Int)

/-- `lru.New(maxBytes, callback)`: empty cache with the given capacity.  The
eviction callback is not exercised by any claim and is omitted. -/
def Cache.New (maxBytes : Int) : Cache :=
  { capacity := maxBytes, length := 0, list := [] }

/-- `func (c *Cache) Get(key string) (value Lengthable, ok bool)`: on a hit,
move the element to the front of the recency list and return its value; on a
miss return `(none, unchanged cache)`. -/
def Cache.Get (c : Cache) (key : String) : Option ByteView × Cache :=
  match c.list.find? (fun e => e.key == key) with
  | some e =>
      (some e.value,
       { c with list := ⟨e.key, e.value⟩ :: c.list.eraseP (fun x => x.key == key) })
  | none => (none, c)

/-- `func (c *Cache) Remove()`: pop the least-recently-used entry (the back
of the list), delete it from the index and subtract its size; a no-op when
the list is empty.  The eviction callback is omitted (no claim uses it). -/
def Cache.Remove (c : Cache) : Cache :=
  match c.list.getLast? with
  | none => c
  | some e =>
      { c with
        list := c.list.dropLast,
        length := c.length - ((goStrLen e.key : Int) + (e.value.len : Int)) }

/-- The eviction loop of `lru.Cache.Add`:
`for c.capacity != 0 && kvSize+c.length > c.capacity { c.Remove() }`.
The Go loop has no bound, so it is modelled with explicit fuel; `none` means
the loop is still running when the fuel is exhausted.  Each iteration either
shortens the list or (once the list is empty) leaves the state fixed, so fuel
`c.list.length + 1` returns `some` exactly when the Go loop terminates. -/
def evictLoop (kvSize : Int) : Nat → Cache → Option Cache
  | 0, c =>
      if c.capacity ≠ 0 ∧ kvSize + c.length > c.capacity then none else some c
  | fuel + 1, c =>
      if c.capacity ≠ 0 ∧ kvSize + c.length > c.capacity then
        evictLoop kvSize fuel c.Remove
      else some c

/-- `func (c *Cache) Add(key string, value Lengthable)`: run the eviction
loop, then either update the existing entry in place (moving it to the front
and applying the code's size delta `old.Len() - value.Len()`) or push a new
entry at the front and charge `kvSize`.  `none` models the eviction loop
never terminating. -/
def Cache.Add (c : Cache) (key : String) (value : ByteView) : Option Cache :=
  let kvSize : Int := (goStrLen key : Int) + (value.len : Int)
  match evictLoop kvSize (c.list.length + 1) c with
  | none => none
  | some c1 =>
      match c1.list.find? (fun e => e.key == key) with
      | some oldEntry =>
          some { c1 with
            list := ⟨key, value⟩ :: c1.list.eraseP (fun e => e.key == key),
            length := c1.length + ((oldEntry.value.len : Int) - (value.len : Int)) }
      | none =>
          some { c1 with
            list := ⟨key, value⟩ :: c1.list,
            length := c1.length + kvSize }

/-- The real total size of the cache: `entrySize` summed over all live
entries (the quantity the specification's capacity invariant is about, as
opposed to the tracked `length` field). -/
def realSize (c : Cache) : Int := (c.list.map entrySize).sum

/-- Key lookup observation on a cache (the entry the Go `hashmap` holds for
`key`), without the recency promotion `Get` performs. -/
def Cache.lookup (c : Cache) (key : String) : Option ByteView :=
  (c.list.find? (fun e => e.key == key)).map (·.value)

/-- One step of a client-visible LRU workload: an `Add` or a `Get` call. -/
inductive LruOp where
  | add (key : String) (value : ByteView)
  | get (key : String)
  deriving Repr

/-- Run a sequence of `Add`/`Get` calls against a cache; `none` as soon as
one `Add` diverges. -/
def runOps (c : Cache) : List LruOp → Option Cache
  | [] => some c
  | LruOp.add k v :: rest =>
      match c.Add k v with
      | none => none
      | some c' => runOps c' rest
  | LruOp.get k :: rest => runOps (c.Get k).2 rest

-- A cache state is stuck in the eviction loop forever once its list is
-- empty and the loop condition holds: `Remove` is then a no-op.
theorem evictLoop_empty_stuck (kvSize : Int) (c : Cache) (hemp : c.list = [])
    (hc : c.capacity ≠ 0) (hgt : kvSize + c.length > c.capacity) :
    ∀ fuel, evictLoop kvSize fuel c = none := by
  have hrem : c.Remove = c := by
    unfold Cache.Remove
    rw [hemp]
    rfl
  intro fuel
  induction fuel with
  | zero => simp [evictLoop, hc, hgt]
  | succ n ih =>
      unfold evictLoop
      rw [if_pos ⟨hc, hgt⟩, hrem]
      exact ih

/-- C1.  The claim states that after each `Add` in any `Add`/`Get` sequence
starting from the empty cache, the total size (key length + value length,
summed over entries) stays ≤ the capacity whenever the capacity is positive.
The code violates it: on updating an existing key, `Add` applies the size
delta with the wrong sign (`c.length += old.Len() - value.Len()`), so the
tracked `length` underestimates the real total and later `Add`s skip the
evictions the invariant requires.  With capacity 10, after
`Add "a" (1 byte)`, `Add "a" (5 bytes)`, `Add "b" (7 bytes)` the real total
is 14 > 10 (and the tracked `length` field is 6). -/
theorem c1_capacity_invariant_violated :
    (runOps (Cache.New 10)
        [LruOp.add "a" ⟨[0]⟩,
         LruOp.add "a" ⟨[0, 0, 0, 0, 0]⟩,
         LruOp.add "b" ⟨[0, 0, 0, 0, 0, 0, 0]⟩]).map realSize = some 14 ∧
    (runOps (Cache.New 10)
        [LruOp.add "a" ⟨[0]⟩,
         LruOp.add "a" ⟨[0, 0, 0, 0, 0]⟩,
         LruOp.add "b" ⟨[0, 0, 0, 0, 0, 0, 0]⟩]).map Cache.capacity = some 10 ∧
    (14 : Int) > 10 ∧ (10 : Int) > 0 := by
  refine ⟨?_, ?_, by decide, by decide⟩ <;> rfl

/-- C2.  The claim states every `Add` terminates, evicting everything when
the new entry alone exceeds the capacity.  The code's eviction loop runs
*before* the insertion and tests `kvSize + c.length > c.capacity`; when the
new entry alone exceeds a nonzero capacity the loop empties the list and then
spins forever (`Remove` on an empty list is a no-op and the condition never
changes).  Concretely, on an empty cache of capacity 1, `Add "ab" (1 byte)`
(entry size 3 > 1) never returns: no amount of fuel makes the loop finish. -/
theorem c2_add_diverges :
    (Cache.New 1).Add "ab" ⟨[0]⟩ = none ∧
    ∀ fuel : Nat, evictLoop 3 fuel (Cache.New 1) = none := by
  exact ⟨by decide, evictLoop_empty_stuck 3 (Cache.New 1) rfl (by decide) (by decide)⟩

/-- The coalescing table of `singleflight.Flight` (`src/unnamed/part_000`):
`flight map[string]*packet`, each pending key mapped to its packet's eventual
`(val, err)` pair (the values waiters read after `wg.Wait()`). -/
abbrev Flight (α : Type) : Type := List (String × α × Option Err)

/-- `func (f *Flight) Fly(key, fn)`: if a packet for `key` is pending, wait
and return its stored result without running `fn` (invocation count 0);
otherwise insert a packet, run `fn` once, delete the packet, and return
`fn`'s result (invocation count 1).  `fn` threads an explicit state `σ` (the
side effects the Go closure performs through pointers) and returns `none`
when the modelled computation diverges, which propagates. -/
def Flight.fly {α σ : Type} (fl : Flight α) (key : String)
    (fn : σ → Option ((α × Option Err) × σ)) (s : σ) :
    Option ((α × Option Err) × Flight α × σ × Nat) :=
  match fl.find? (fun q => q.1 == key) with
  | some q => some ((q.2.1, q.2.2), fl, s, 0)
  | none =>
      match fn s with
      | none => none
      | some (r, s') =>
          some (r, ((key, r.1, r.2) :: fl).filter (fun q => !(q.1 == key)), s', 1)

-- Deleting `key` right after inserting it leaves a table that had no record
-- for `key` unchanged.
theorem filter_cons_self_of_find?_none {α : Type} (fl : Flight α) (key : String)
    (p : α × Option Err) (h : fl.find? (fun q => q.1 == key) = none) :
    ((key, p.1, p.2) :: fl).filter (fun q => !(q.1 == key)) = fl := by
  rw [List.find?_eq_none] at h
  simp only [List.filter_cons, beq_self_eq_true, Bool.not_true, Bool.false_eq_true,
    if_false, List.filter_eq_self]
  intro a ha
  simpa using h a ha

/-- C5.  A `Fly(key, fn)` call finding no pending record for `key` runs `fn`
exactly once (invocation count 1), returns `fn`'s `(value, error)` pair
verbatim, and leaves the coalescing table without a record for `key` (here:
unchanged, since it had none); a subsequent `Fly` for the same key therefore
runs its own function afresh instead of replaying the previous result. -/
theorem c5_fly_runs_once_and_removes_record {α σ : Type} (fl : Flight α)
    (key : String) (fn fn₂ : σ → Option ((α × Option Err) × σ)) (s s' s₂ : σ)
    (r r₂ : α × Option Err)
    (hnp : fl.find? (fun q => q.1 == key) = none)
    (h1 : fn s = some (r, s')) (h2 : fn₂ s' = some (r₂, s₂)) :
    Flight.fly fl key fn s = some (r, fl, s', 1) ∧
    Flight.fly fl key fn₂ s' = some (r₂, fl, s₂, 1) := by
  constructor
  · simp only [Flight.fly, hnp, h1, filter_cons_self_of_find?_none fl key r hnp]
  · simp only [Flight.fly, hnp, h2, filter_cons_self_of_find?_none fl key r₂ hnp]

/-- Witness for C5 at a concrete input: an empty table, a first function
returning `(5, no error)` and bumping the state, a second returning
`(7, error "e")`. -/
theorem c5_fly_runs_once_and_removes_record_witness :
    Flight.fly ([] : Flight Nat) "k"
        (fun s : Nat => some ((5, none), s + 1)) 0 = some ((5, none), [], 1, 1) ∧
    Flight.fly ([] : Flight Nat) "k"
        (fun s : Nat => some ((7, some "e"), s)) 1 = some ((7, some "e"), [], 1, 1) :=
  c5_fly_runs_once_and_removes_record [] "k"
    (fun s => some ((5, none), s + 1)) (fun s => some ((7, some "e"), s))
    0 1 1 (5, none) (7, some "e") rfl rfl rfl

/-- The `Fetcher` interface (`src/unnamed/part_002`):
`Fetch(group string, key string) ([]byte, error)`. -/
abbrev Fetcher : Type := String → String → List Nat × Option Err

/-- The `Picker` interface (`src/unnamed/part_002`):
`Pick(key string) (peer Fetcher, ok bool)`.  `none` covers `ok = false`;
`some f` covers `ok = true` with a usable fetcher. -/
abbrev PickerCap : Type := String → Option Fetcher

/-- Modelled from the spec: the concurrent cache wrapper (`newCache`,
`cache.get`, `cache.add` in `src/gocache.go`) is code of this repository that
is not under `src/`.  Per the spec, a `CacheGroup` "owns one BoundedLRU
instance"; the wrapper is a mutex plus delegation to the LRU, so it is
modelled as the LRU `Cache` itself with the configured capacity. -/
def newCache (maxBytes : Int) : Cache := Cache.New maxBytes

/-- Modelled from the spec: delegation of the cache wrapper's `get` to the
BoundedLRU's `Get`. -/
def cacheGet (c : Cache) (key : String) : Option ByteView × Cache := c.Get key

/-- Modelled from the spec: delegation of the cache wrapper's `add` to the
BoundedLRU's `Add` (`none` when the LRU's eviction loop diverges). -/
def cacheAdd (c : Cache) (key : String) (value : ByteView) : Option Cache :=
  c.Add key value

/-- The `Group` structure of `src/gocache.go` (named `CacheGroup` here, as in the spec, because `Group` is taken by Mathlib): name, owned cache, origin
retriever, optionally attached peer picker (`server Picker`), and the
coalescing table (`flight *singleflight.Flight`). -/
structure CacheGroup where
  name : String
  cache : Cache
  retriever : String → List Nat × Option Err
  server : Option PickerCap
  flight : Flight ByteView

/-- `func (g *Group) populateCache(key, value)`: insert the loaded value into
the owned cache (`none` when the LRU's eviction loop diverges). -/
def CacheGroup.populateCache (g : CacheGroup) (key : String) (value : ByteView) :
    Option CacheGroup :=
  match cacheAdd g.cache key value with
  | none => none
  | some c' => some { g with cache := c' }

/-- `func (g *Group) getLocally(key string) (ByteView, error)`: call the
retriever; on error return `(ByteView{}, err)` without touching the cache; on
success clone the bytes, populate the cache and return the value. -/
def CacheGroup.getLocally (g : CacheGroup) (key : String) :
    Option ((ByteView × Option Err) × CacheGroup) :=
  match g.retriever key with
  | (_, some e) => some ((⟨[]⟩, some e), g)
  | (bytes, none) =>
      let value : ByteView := ⟨cloneBytes bytes⟩
      match g.populateCache key value with
      | none => none
      | some g' => some ((value, none), g')

/-- The closure passed to `g.flight.Fly` inside `func (g *Group) load`: if a
peer picker is attached and picks a remote fetcher, try it; on fetch success
return the fetched bytes as a `ByteView` (no cache insertion); otherwise fall
through to `getLocally`. -/
def CacheGroup.loadFn (g : CacheGroup) (key : String) :
    Option ((ByteView × Option Err) × CacheGroup) :=
  match g.server with
  | some pick =>
      match pick key with
      | some fetcher =>
          match fetcher g.name key with
          | (bytes, none) => some ((⟨bytes⟩, none), g)
          | (_, some _) => g.getLocally key
      | none => g.getLocally key
  | none => g.getLocally key

/-- `func (g *Group) load(key string) (value ByteView, err error)`: run the
load closure through the coalescer; on a nil error return the view, otherwise
return `(ByteView{}, err)`. -/
def CacheGroup.load (g : CacheGroup) (key : String) :
    Option ((ByteView × Option Err) × CacheGroup) :=
  match Flight.fly g.flight key (fun g2 => CacheGroup.loadFn g2 key) g with
  | none => none
  | some ((v, err), fl', g', _count) =>
      match err with
      | none => some ((v, none), { g' with flight := fl' })
      | some e => some ((⟨[]⟩, some e), { g' with flight := fl' })

/-- `func (g *Group) Get(key string) (ByteView, error)`: reject the empty
key, then try the owned cache, then fall back to `load`. -/
def CacheGroup.Get (g : CacheGroup) (key : String) :
    Option ((ByteView × Option Err) × CacheGroup) :=
  if key == "" then some ((⟨[]⟩, some "key is required"), g)
  else
    match cacheGet g.cache key with
    | (some v, c') => some ((v, none), { g with cache := c' })
    | (none, c') => CacheGroup.load { g with cache := c' } key

/-- C9.  For every group, `Get ""` returns the "key is required" error to the
immediate caller and leaves the whole group state (cache, coalescing table)
unchanged; since this holds for arbitrary retriever and peer-picker fields,
neither capability (nor the cache) is consulted. -/
theorem c9_empty_key_rejected (g : CacheGroup) :
    CacheGroup.Get g "" = some ((⟨[]⟩, some "key is required"), g) := rfl

-- When no call is pending for `key`, `load` runs the load closure once and
-- returns its value on a nil error, restoring the coalescing table.
theorem load_ok_of_no_pending (g g' : CacheGroup) (key : String) (v : ByteView)
    (hnp : g.flight.find? (fun q => q.1 == key) = none)
    (hfn : CacheGroup.loadFn g key = some ((v, none), g')) :
    CacheGroup.load g key = some ((v, none), { g' with flight := g.flight }) := by
  unfold CacheGroup.load
  simp only [Flight.fly, hnp, hfn,
    filter_cons_self_of_find?_none g.flight key (v, none) hnp]

-- When no call is pending for `key` and the load closure ends in an error,
-- `load` returns the zero view with that error, restoring the table.
theorem load_err_of_no_pending (g g' : CacheGroup) (key : String) (v : ByteView)
    (e : Err) (hnp : g.flight.find? (fun q => q.1 == key) = none)
    (hfn : CacheGroup.loadFn g key = some ((v, some e), g')) :
    CacheGroup.load g key = some ((⟨[]⟩, some e), { g' with flight := g.flight }) := by
  unfold CacheGroup.load
  simp only [Flight.fly, hnp, hfn,
    filter_cons_self_of_find?_none g.flight key (v, some e) hnp]

/-- C7.  When the origin retriever fails for `key` with error `e`, the load
path — whether no picker is attached, the picker declines, or the remote
fetch fails — returns exactly `e` as the coalesced result and leaves the
group (in particular its cache) unchanged: nothing is inserted. -/
theorem c7_origin_error_propagated_no_insert (g : CacheGroup) (key : String)
    (bs : List Nat) (e : Err)
    (hnp : g.flight.find? (fun q => q.1 == key) = none)
    (hr : g.retriever key = (bs, some e)) :
    (g.server = none → CacheGroup.load g key = some ((⟨[]⟩, some e), g)) ∧
    (∀ pick, g.server = some pick → pick key = none →
        CacheGroup.load g key = some ((⟨[]⟩, some e), g)) ∧
    (∀ pick f bs' e', g.server = some pick → pick key = some f →
        f g.name key = (bs', some e') →
        CacheGroup.load g key = some ((⟨[]⟩, some e), g)) := by
  have hloc : CacheGroup.getLocally g key = some ((⟨[]⟩, some e), g) := by
    unfold CacheGroup.getLocally
    rw [hr]
  refine ⟨fun hs => ?_, fun pick hs hp => ?_, fun pick f bs' e' hs hp hf => ?_⟩
  all_goals
    have hfn : CacheGroup.loadFn g key = some ((⟨[]⟩, some e), g) := by
      first
        | (simp only [CacheGroup.loadFn, hs]; exact hloc)
        | (simp only [CacheGroup.loadFn, hs, hp]; exact hloc)
        | (simp only [CacheGroup.loadFn, hs, hp, hf]; exact hloc)
    have := load_err_of_no_pending g g key ⟨[]⟩ e hnp hfn
    simpa using this

/-- Concrete group for the C7 witness: no picker attached, failing loader. -/
def gC7a : CacheGroup :=
  { name := "g7", cache := newCache 16,
    retriever := fun _ => ([], some "boom"), server := none, flight := [] }

/-- Concrete group for the C7 witness: picker declines every key. -/
def gC7b : CacheGroup :=
  { gC7a with server := some (fun _ => none) }

/-- Concrete group for the C7 witness: picked remote fetch fails. -/
def gC7c : CacheGroup :=
  { gC7a with server := some (fun _ => some (fun _ _ => ([9], some "netdown"))) }

/-- Witness for C7 at concrete inputs, one per remote shape. -/
theorem c7_origin_error_propagated_no_insert_witness :
    CacheGroup.load gC7a "k" = some ((⟨[]⟩, some "boom"), gC7a) ∧
    CacheGroup.load gC7b "k" = some ((⟨[]⟩, some "boom"), gC7b) ∧
    CacheGroup.load gC7c "k" = some ((⟨[]⟩, some "boom"), gC7c) :=
  ⟨(c7_origin_error_propagated_no_insert gC7a "k" [] "boom" rfl rfl).1 rfl,
   (c7_origin_error_propagated_no_insert gC7b "k" [] "boom" rfl rfl).2.1
      (fun _ => none) rfl rfl,
   (c7_origin_error_propagated_no_insert gC7c "k" [] "boom" rfl rfl).2.2
      (fun _ => some (fun _ _ => ([9], some "netdown")))
      (fun _ _ => ([9], some "netdown")) [9] "netdown" rfl rfl rfl⟩

-- A terminating `Add` always leaves the added entry at the front of the
-- recency list, so the key maps to the added value afterwards.
theorem lookup_of_Add (c c' : Cache) (key : String) (value : ByteView)
    (h : c.Add key value = some c') : c'.lookup key = some value := by
  simp only [Cache.Add] at h
  split at h
  · exact absurd h (by simp)
  · split at h <;> (injection h with h; subst h; simp [Cache.lookup])

/-- C3.  With a peer picker attached that picks a fetcher for `key`: (a) if
the remote fetch fails and the origin retriever succeeds, `load` returns the
loaded value and the value is present in the local cache afterwards; (b) if
the remote fetch succeeds, `load` returns the fetched bytes and the group —
in particular its local cache — is unchanged: the remote value is not
inserted. -/
theorem c3_remote_fail_falls_back_remote_hit_not_cached (g : CacheGroup)
    (key : String) (hnp : g.flight.find? (fun q => q.1 == key) = none) :
    (∀ pick f bsF eF bsL c', g.server = some pick → pick key = some f →
        f g.name key = (bsF, some eF) →
        g.retriever key = (bsL, none) →
        cacheAdd g.cache key ⟨bsL⟩ = some c' →
        CacheGroup.load g key = some ((⟨bsL⟩, none), { g with cache := c' }) ∧
        Cache.lookup c' key = some ⟨bsL⟩) ∧
    (∀ pick f bsF, g.server = some pick → pick key = some f →
        f g.name key = (bsF, none) →
        CacheGroup.load g key = some ((⟨bsF⟩, none), g)) := by
  constructor
  · intro pick f bsF eF bsL c' hs hp hf hr hadd
    have hloc : CacheGroup.getLocally g key =
        some ((⟨bsL⟩, none), { g with cache := c' }) := by
      simp only [CacheGroup.getLocally, hr, cloneBytes, CacheGroup.populateCache, hadd]
    have hfn : CacheGroup.loadFn g key = some ((⟨bsL⟩, none), { g with cache := c' }) := by
      simp only [CacheGroup.loadFn, hs, hp, hf]
      rw [hloc, hs]
    refine ⟨?_, lookup_of_Add g.cache c' key ⟨bsL⟩ hadd⟩
    have := load_ok_of_no_pending g { g with cache := c' } key ⟨bsL⟩ hnp hfn
    simpa using this
  · intro pick f bsF hs hp hf
    have hfn : CacheGroup.loadFn g key = some ((⟨bsF⟩, none), g) := by
      simp only [CacheGroup.loadFn, hs, hp, hf]
    have := load_ok_of_no_pending g g key ⟨bsF⟩ hnp hfn
    simpa using this

/-- Concrete group for the C3 witness, part (a): remote fetch fails, loader
returns two bytes. -/
def gC3a : CacheGroup :=
  { name := "g3", cache := newCache 100,
    retriever := fun _ => ([1, 2], none),
    server := some (fun _ => some (fun _ _ => ([], some "netfail"))), flight := [] }

/-- Concrete group for the C3 witness, part (b): remote fetch succeeds. -/
def gC3b : CacheGroup :=
  { gC3a with server := some (fun _ => some (fun _ _ => ([7], none))) }

/-- Witness for C3 at concrete inputs: the fallback value lands in the
cache; the successful remote value leaves the group untouched. -/
theorem c3_remote_fail_falls_back_remote_hit_not_cached_witness :
    (CacheGroup.load gC3a "k" =
        some ((⟨[1, 2]⟩, none),
          { gC3a with cache := ⟨100, 3, [⟨"k", ⟨[1, 2]⟩⟩]⟩ }) ∧
     Cache.lookup ⟨100, 3, [⟨"k", ⟨[1, 2]⟩⟩]⟩ "k" = some ⟨[1, 2]⟩) ∧
    CacheGroup.load gC3b "k" = some ((⟨[7]⟩, none), gC3b) :=
  ⟨(c3_remote_fail_falls_back_remote_hit_not_cached gC3a "k" rfl).1
      (fun _ => some (fun _ _ => ([], some "netfail")))
      (fun _ _ => ([], some "netfail")) [] "netfail" [1, 2]
      ⟨100, 3, [⟨"k", ⟨[1, 2]⟩⟩]⟩ rfl rfl rfl rfl (by decide),
   (c3_remote_fail_falls_back_remote_hit_not_cached gC3b "k" rfl).2
      (fun _ => some (fun _ _ => ([7], none)))
      (fun _ _ => ([7], none)) [7] rfl rfl rfl⟩

/-- `func (g *Group) RegisterSvr(p Picker)`: attach the peer picker; `none`
models the `panic` when one is already attached. -/
def CacheGroup.RegisterSvr (g : CacheGroup) (p : PickerCap) : Option CacheGroup :=
  match g.server with
  | some _ => none
  | none => some { g with server := some p }

/-- The process-wide directory `groups map[string]*Group` of
`src/gocache.go`, as an association list with unique keys. -/
abbrev GroupsDir : Type := List (String × CacheGroup)

/-- `func GetGroup(name string) *Group`: directory lookup (`none` is Go's
`nil`). -/
def GetGroup (gs : GroupsDir) (name : String) : Option CacheGroup :=
  (gs.find? (fun q => q.1 == name)).map (·.2)

/-- `func NewGroup(name, maxBytes, retriever)`: `none` models the
`panic("Retriver is nil.")` on a nil retriever; otherwise construct the
group and store it with `groups[name] = g`, overwriting any entry under the
same name. -/
def NewGroup (gs : GroupsDir) (name : String) (maxBytes : Int)
    (retriever : Option (String → List Nat × Option Err)) :
    Option (CacheGroup × GroupsDir) :=
  match retriever with
  | none => none
  | some r =>
      let g : CacheGroup :=
        { name := name, cache := newCache maxBytes, retriever := r,
          server := none, flight := [] }
      some (g, (name, g) :: gs.filter (fun q => !(q.1 == name)))

/-- `func DestoryGroup(name string)`: look the group up; if present, run the
type assertion `g.server.(*server)` — which panics (`none`) when no server
was ever attached, because the interface value is nil — then `Stop()` the
server (a server-state effect, invisible in the directory) and delete the
entry.  Attached pickers are `*server` values in this repository
(`Group.RegisterSvr` is only called with them), so the assertion succeeds
exactly when a picker is attached. -/
def DestoryGroup (gs : GroupsDir) (name : String) : Option GroupsDir :=
  match GetGroup gs name with
  | none => some gs
  | some g =>
      match g.server with
      | none => none
      | some _ => some (gs.filter (fun q => !(q.1 == name)))

/-- C10.  `NewGroup` with a name already in the directory and a non-nil
retriever does not fail: it silently replaces the entry, and `GetGroup` then
returns the newly constructed group. -/
theorem c10_newgroup_overwrites (gs : GroupsDir) (name : String)
    (maxBytes : Int) (r : String → List Nat × Option Err) (g₀ : CacheGroup)
    (hpresent : GetGroup gs name = some g₀) :
    NewGroup gs name maxBytes (some r) =
      some (⟨name, newCache maxBytes, r, none, []⟩,
        (name, (⟨name, newCache maxBytes, r, none, []⟩ : CacheGroup)) ::
          gs.filter (fun q => !(q.1 == name))) ∧
    GetGroup
        ((name, (⟨name, newCache maxBytes, r, none, []⟩ : CacheGroup)) ::
          gs.filter (fun q => !(q.1 == name))) name =
      some ⟨name, newCache maxBytes, r, none, []⟩ := by
  refine ⟨rfl, ?_⟩
  simp [GetGroup]

/-- The pre-existing group for the C10 witness. -/
def gC10old : CacheGroup :=
  { name := "a", cache := newCache 4, retriever := fun _ => ([], none),
    server := none, flight := [] }

/-- The retriever of the replacing group in the C10 witness. -/
def r10 : String → List Nat × Option Err := fun _ => ([5], none)

/-- Witness for C10 at a concrete input. -/
theorem c10_newgroup_overwrites_witness :
    NewGroup [("a", gC10old)] "a" 9 (some r10) =
      some (⟨"a", newCache 9, r10, none, []⟩,
        ("a", (⟨"a", newCache 9, r10, none, []⟩ : CacheGroup)) ::
          [("a", gC10old)].filter (fun q => !(q.1 == "a"))) ∧
    GetGroup
        (("a", (⟨"a", newCache 9, r10, none, []⟩ : CacheGroup)) ::
          [("a", gC10old)].filter (fun q => !(q.1 == "a"))) "a" =
      some ⟨"a", newCache 9, r10, none, []⟩ :=
  c10_newgroup_overwrites [("a", gC10old)] "a" 9 r10 gC10old rfl

/-- Group without an attached server, for the C8 failing input. -/
def gC8 : CacheGroup :=
  { name := "g1", cache := newCache 8, retriever := fun _ => ([], none),
    server := none, flight := [] }

/-- Group with an attached server, contrasting case for C8. -/
def gC8s : CacheGroup :=
  { gC8 with name := "g2", server := some (fun _ => none) }

/-- C8.  The claim says `Destroy(name)` removes the entry even when the
group never had a routing resource attached.  The code instead runs the type
assertion `g.server.(*server)` before checking anything; on a group whose
`server` interface field is nil the assertion panics and the entry is never
removed (modelled as `none`).  With a server attached the removal works. -/
theorem c8_destroy_panics_without_server :
    DestoryGroup [("g1", gC8)] "g1" = none ∧
    DestoryGroup [("g2", gC8s)] "g2" = some [] := by
  exact ⟨rfl, rfl⟩

/-- The pluggable hash of `src/registry/discover.go`
(`type HashFunc func(data []byte) uint32`), applied to the string whose
UTF-8 bytes Go would hash.  The concrete default (`crc32.ChecksumIEEE`) is
never fixed by the spec's contract ("the exact numeric hash values are not
part of the contract"), so the function stays abstract. -/
abbrev HashFunc : Type := String → Nat

/-- The consistent-hash structure `Consistentency` of
`src/registry/discover.go`: hash function, virtual-node count, sorted ring
of virtual-node hashes, and the virtual-node → member table (association
list; a later `Register` insertion shadows an earlier one under the same
hash, matching Go map overwrite). -/
structure Consistentency where
  hash : HashFunc
  replicas : Nat
  ring : List Nat
  hashMap : List (Nat × String)

/-- `consistenthash.New(replicas, fn)`: empty ring.  (The Go nil-default to
`crc32.ChecksumIEEE` is not modelled: a hash is always supplied.) -/
def Consistentency.New (replicas : Nat) (fn : HashFunc) : Consistentency :=
  { hash := fn, replicas := replicas, ring := [], hashMap := [] }

/-- Insertion into a sorted list, ascending. -/
def insertSorted (x : Nat) : List Nat → List Nat
  | [] => [x]
  | y :: ys => if x ≤ y then x :: y :: ys else y :: insertSorted x ys

/-- `sort.Ints`: ascending sort (any correct sort of a list of `Nat`s yields
the same list). -/
def sortInts (l : List Nat) : List Nat := l.foldr insertSorted []

/-- Go map read `hashMap[h]` with the string zero value `""` on a miss. -/
def hashMapLookup (m : List (Nat × String)) (h : Nat) : String :=
  match m.find? (fun q => q.1 == h) with
  | some q => q.2
  | none => ""

/-- `func (c *Consistentency) Register(peersName ...string)`: for each peer,
append `replicas` virtual-node hashes of `strconv.Itoa(i) + peerName` to the
ring and record the owner; finally re-sort the ring. -/
def Consistentency.Register (c : Consistentency) (peersName : List String) :
    Consistentency :=
  let c' := peersName.foldl
    (fun acc peerName =>
      (List.range acc.replicas).foldl
        (fun acc2 i =>
          let hashValue := acc2.hash (toString i ++ peerName)
          { acc2 with
            ring := acc2.ring ++ [hashValue],
            hashMap := (hashValue, peerName) :: acc2.hashMap })
        acc)
    c
  { c' with ring := sortInts c'.ring }

/-- The call `sort.Search(len(ring), func(i) { ring[i] >= hashValue })` in
`Consistentency.Get`.  `sort.Search` is a binary search that, for a
predicate monotone in `i` — which `ring[i] >= hashValue` is on the sorted
rings `Register` builds — returns the least index satisfying it, or
`len(ring)` when none does; that function is written here directly. -/
def ringSearch (ring : List Nat) (hashValue : Nat) : Nat :=
  match ring with
  | [] => 0
  | x :: xs => if hashValue ≤ x then 0 else ringSearch xs hashValue + 1

/-- `func (c *Consistentency) Get(key string) string`: `""` on an empty
ring; otherwise binary-search the sorted ring for the first entry ≥
`hash(key)` and return its owner, wrapping around via `idx % len(ring)`. -/
def Consistentency.Get (c : Consistentency) (key : String) : String :=
  if c.ring.length == 0 then ""
  else
    let hashValue := c.hash key
    let idx := ringSearch c.ring hashValue
    hashMapLookup c.hashMap (c.ring.getD (idx % c.ring.length) 0)

/-- `src/server.go` calls the ring lookup under the name `GetPeer`; the
method in `src/registry/discover.go` is `Get` — the same lookup. -/
def Consistentency.GetPeer (c : Consistentency) (key : String) : String :=
  c.Get key

-- `ringSearch` never exceeds the ring length.
theorem ringSearch_le_length (l : List Nat) (h : Nat) :
    ringSearch l h ≤ l.length := by
  induction l with
  | nil => simp [ringSearch]
  | cons x xs ih =>
      unfold ringSearch
      by_cases hx : h ≤ x
      · simp [hx]
      · simpa [hx, Nat.succ_le_succ] using Nat.succ_le_succ ih

-- When some ring entry is ≥ `h`, `ringSearch` lands on the first such
-- entry, inside the ring.
theorem ringSearch_of_find?_some (l : List Nat) (h x₀ : Nat)
    (hf : l.find? (fun x => decide (h ≤ x)) = some x₀) :
    ringSearch l h < l.length ∧ l.getD (ringSearch l h) 0 = x₀ := by
  induction l with
  | nil => simp [List.find?] at hf
  | cons x xs ih =>
      by_cases hx : h ≤ x
      · rw [List.find?_cons_of_pos _ (by simpa using hx)] at hf
        injection hf with hf
        subst hf
        simp [ringSearch, hx]
      · rw [List.find?_cons_of_neg _ (by simpa using hx)] at hf
        obtain ⟨hlt, hget⟩ := ih hf
        refine ⟨?_, ?_⟩
        · simpa [ringSearch, hx, Nat.succ_lt_succ] using Nat.succ_lt_succ hlt
        · simpa [ringSearch, hx] using hget

-- When no ring entry is ≥ `h`, `ringSearch` returns the ring length.
theorem ringSearch_of_find?_none (l : List Nat) (h : Nat)
    (hf : l.find? (fun x => decide (h ≤ x)) = none) :
    ringSearch l h = l.length := by
  induction l with
  | nil => simp [ringSearch]
  | cons x xs ih =>
      by_cases hx : h ≤ x
      · rw [List.find?_cons_of_pos _ (by simpa using hx)] at hf
        cases hf
      · rw [List.find?_cons_of_neg _ (by simpa using hx)] at hf
        simp [ringSearch, hx, ih hf]

-- The first element of a nonempty ascending-sorted list is its minimum.
theorem sorted_getD_zero_le (l : List Nat) (hs : List.Sorted (· ≤ ·) l) :
    ∀ x ∈ l, l.getD 0 0 ≤ x := by
  cases l with
  | nil => simp
  | cons a t =>
      intro x hx
      rcases List.mem_cons.mp hx with rfl | hxt
      · simp
      · simpa using (List.sorted_cons.mp hs).1 x hxt

/-- C6.  On the sorted rings `Register` builds: an empty ring locates to the
empty sentinel `""`; otherwise `Get` returns the owner of the first ring
entry whose hash is ≥ `hash(key)`, and when every entry is < `hash(key)` it
wraps around to the ring's first entry — which sortedness makes the
smallest-hash entry. -/
theorem c6_ring_locate (c : Consistentency) (key : String)
    (hsorted : List.Sorted (· ≤ ·) c.ring) :
    (c.ring = [] → c.Get key = "") ∧
    (∀ x₀, c.ring.find? (fun x => decide (c.hash key ≤ x)) = some x₀ →
        c.Get key = hashMapLookup c.hashMap x₀) ∧
    (c.ring ≠ [] → c.ring.find? (fun x => decide (c.hash key ≤ x)) = none →
        c.Get key = hashMapLookup c.hashMap (c.ring.getD 0 0) ∧
        ∀ x ∈ c.ring, c.ring.getD 0 0 ≤ x) := by
  refine ⟨fun hnil => ?_, fun x₀ hf => ?_, fun hne hf => ?_⟩
  · simp [Consistentency.Get, hnil]
  · obtain ⟨hlt, hget⟩ := ringSearch_of_find?_some c.ring (c.hash key) x₀ hf
    have hne : c.ring.length ≠ 0 := Nat.pos_iff_ne_zero.mp (Nat.lt_of_le_of_lt (Nat.zero_le _) hlt)
    have hbe : (c.ring.length == 0) = false := by simpa using hne
    simp only [Consistentency.Get, hbe, Bool.false_eq_true, if_false]
    rw [Nat.mod_eq_of_lt hlt, hget]
  · have hlen : c.ring.length ≠ 0 := by simpa [List.length_eq_zero] using hne
    have hbe : (c.ring.length == 0) = false := by simpa using hlen
    have hsearch := ringSearch_of_find?_none c.ring (c.hash key) hf
    constructor
    · simp only [Consistentency.Get, hbe, Bool.false_eq_true, if_false]
      rw [hsearch, Nat.mod_self]
    · exact sorted_getD_zero_le c.ring hsorted

/-- Concrete ring for the C6 witness: hash = UTF-8 length of the key,
entries 3 → "m1" and 7 → "m2". -/
def cW : Consistentency :=
  { hash := fun s => goStrLen s, replicas := 1,
    ring := [3, 7], hashMap := [(3, "m1"), (7, "m2")] }

/-- Witness for C6: a key hashing to 4 locates to the owner of entry 7; a
key hashing to 9 (beyond every entry) wraps around to the owner of entry 3. -/
theorem c6_ring_locate_witness :
    Consistentency.Get cW "abcd" = "m2" ∧
    Consistentency.Get cW "abcdefghi" = "m1" :=
  ⟨(c6_ring_locate cW "abcd" (by decide)).2.1 7 rfl,
   ((c6_ring_locate cW "abcdefghi" (by decide)).2.2 (by decide) rfl).1⟩

/-- The grpc `client` of `src/unnamed/part_003`: it only stores the path
`gocache/ip:port` of the peer it fetches from. -/
structure GoClient where
  name : String
  deriving DecidableEq, Repr

/-- `func NewClient(peerAddr string) *client`. -/
def NewClient (peerAddr : String) : GoClient := ⟨peerAddr⟩

/-- The `server` of `src/server.go`, after `SetPeers` has run: own address,
consistent-hash ring and the per-peer client table (`clients
map[string]*client`). -/
structure Server where
  addr : String
  consHash : Consistentency
  clients : List (String × GoClient)

/-- `func (s *server) SetPeers(peersAddr ...string)` applied to a fresh
`NewServer(addr)` server: build a 50-replica ring over the peers and one
client per peer (`NewClient(fmt.Sprintf("gocache/%s", peerAddr))`).  The
address-format validations (`NewServer`'s error, the per-peer
`ValidPeerAddr` panic) are not modelled: the claims concern already-accepted
addresses.  The ring's default hash (`crc32.ChecksumIEEE` via
`consistenthash.New(defaultReplicas, nil)`) is pluggable and passed
explicitly. -/
def serverSetPeers (addr : String) (hash : HashFunc) (peersAddr : List String) :
    Server :=
  { addr := addr,
    consHash := (Consistentency.New 50 hash).Register peersAddr,
    clients := peersAddr.map (fun p => (p, NewClient ("gocache/" ++ p))) }

/-- `func (s *server) Pick(key string) (Fetcher, bool)`: look the owner up
on the ring; if it is the server's own address return `(nil, false)`;
otherwise return `(s.clients[peerAddr], true)` — where the Go map read
yields a nil `*client` (`none`) when `peerAddr` has no client, notably for
the empty-ring sentinel `""`. -/
def Server.Pick (s : Server) (key : String) : Option GoClient × Bool :=
  let peerAddr := s.consHash.GetPeer key
  if peerAddr == s.addr then (none, false)
  else ((s.clients.find? (fun q => q.1 == peerAddr)).map (·.2), true)

/-- C4.  The claim says `Pick` returns `found = false` whenever no peers are
configured.  The code only compares the ring result against the server's own
address; with zero peers the ring lookup returns the sentinel `""`, which
differs from the address, so `Pick` returns `found = true` together with a
nil fetcher (the `clients` map read misses) — an unusable pick the claim
says cannot happen. -/
theorem c4_pick_no_peers_returns_true_with_nil_fetcher :
    (serverSetPeers "127.0.0.1:6324" (fun _ => 0) []).Pick "somekey" =
      (none, true) := rfl
